import Mathlib

/-!
Verification of `src/insurance_submissions.py` (insurance submission
extraction pipeline) against its natural-language specification.

The script is sequential I/O orchestration around a remote assistant
service.  We embed the local, deterministic parts of the program
shallowly:

* Python `str.replace` (used by the cleanup pass in `main`, lines
  246-249) becomes `pyReplace` on `List Char`;
* the polling loop `monitor_thread_run` (lines 52-62) becomes a
  fuel-indexed recursion over an abstract stream of run statuses;
* the intake copy step and the two per-submission stages
  (`process_submission_pdf`, `process_submission_xlsx`, and the body of
  `main`) become pure functions over a directory listing, with the
  remote assistant abstracted as an oracle supplying the three response
  texts;
* `json.dumps` applied to a string (lines 118, 178, 210) becomes
  `json_dumps`, the ASCII-escaping JSON string encoder.

Remote calls themselves are opaque collaborators (the spec places the
backend out of scope); their results are oracle parameters, and their
control-flow order inside `process_submission_pdf` is modelled by an
explicit call trace for the resource-cleanup claim.
-/

/-! ## Python `str.replace` on lists of characters

`replaceF pat rep fuel s` performs the left-to-right, non-overlapping
replacement of every occurrence of `pat` in `s` by `rep`, exactly as
Python `s.replace(pat, rep)` does for a non-empty `pat`.  The `fuel`
argument makes the recursion structural; `pyReplace` supplies
`s.length`, which is enough fuel because each step consumes at least
one character of `s`. -/

def replaceF (pat rep : List Char) : Nat → List Char → List Char
  | _, [] => []
  | 0, c :: cs => c :: cs
  | fuel+1, c :: cs =>
    if pat.isPrefixOf (c :: cs) then
      rep ++ replaceF pat rep fuel (cs.drop (pat.length - 1))
    else
      c :: replaceF pat rep fuel cs

/-- Python `s.replace(pat, rep)` for a non-empty pattern `pat`. -/
def pyReplace (pat rep s : List Char) : List Char :=
  replaceF pat rep s.length s

/-- `containsB pat s` decides whether `pat` occurs as a contiguous
substring of `s` (Python `pat in s`). -/
def containsB (pat : List Char) : List Char → Bool
  | [] => pat.isEmpty
  | c :: cs => pat.isPrefixOf (c :: cs) || containsB pat cs

def escU3010 : List Char := ['\\', 'u', '3', '0', '1', '0']

def escU3011 : List Char := ['\\', 'u', '3', '0', '1', '1']

def escU2020 : List Char := ['\\', 'u', '2', '0', '2', '0']

def escNL : List Char := ['\\', 'n']

def repDagger : List Char := [Char.ofNat 226, Char.ofNat 8364, Char.ofNat 160]

/-- The three bracket/character substitutions of the cleanup pass
(`main`, lines 246-248), in source order. -/
def cleanupSubstL (s : List Char) : List Char :=
  pyReplace escU2020 repDagger (pyReplace escU3011 [']'] (pyReplace escU3010 ['['] s))

/-- The newline-unescaping step of the cleanup pass (`main`, line 249). -/
def unescapeNewlinesL (s : List Char) : List Char :=
  pyReplace escNL ['\n'] s

/-- The full cleanup pass applied to the buffer text (`main`, lines
246-249): the three substitutions followed by newline unescaping. -/
def cleanupL (s : List Char) : List Char :=
  unescapeNewlinesL (cleanupSubstL s)

/-- The full cleanup pass on a `String` buffer. -/
def cleanup_pass (s : String) : String :=
  ⟨cleanupL s.data⟩

def terminal_statuses : List String := ["completed", "cancelled", "expired", "failed"]

/-- The loop guard of `monitor_thread_run` (line 55): the run status is
in the terminal set. -/
def is_terminal_status (status : String) : Bool :=
  terminal_statuses.contains status

/-- The polling loop of `monitor_thread_run`: starting at poll index
`k`, return the index of the first terminal poll, or `none` if no poll
among the next `fuel` is terminal (the source loop has no bound: it
simply keeps running). -/
def monitor_thread_run (statuses : Nat → String) : Nat → Nat → Option Nat
  | 0, _ => none
  | fuel+1, k =>
    if is_terminal_status (statuses k) then some k
    else monitor_thread_run statuses fuel (k+1)

/-- Elapsed time, in the 5-time-unit sleeps of line 56, at which the
k-th poll retrieves the run: the loop sleeps before every retrieval. -/
def poll_elapsed_time (k : Nat) : Nat := 5 * (k + 1)

/-- Python `name.endswith(suffix)`. -/
def endswith (name suffix : String) : Bool :=
  suffix.data.isSuffixOf name.data

/-- The intake copy filter of `main`, line 232:
`file_name.endswith((".pdf", ".docx", ".xlsx"))`. -/
def isIntakeEligible (name : String) : Bool :=
  endswith name ".pdf" || endswith name ".docx" || endswith name ".xlsx"

/-- Whether a file name begins with a dot (hidden for glob purposes). -/
def startsWithDot (name : String) : Bool :=
  name.data.head? == some '.'

/-- `glob.glob` for the pattern `*.ext` over a directory listing. -/
def glob_data (ext : String) (dataDir : List String) : List String :=
  dataDir.filter fun f => endswith f ext && !(startsWithDot f)

/-- Clearing the scratch directory (`main`, lines 225-227): every file
is removed. -/
def clearDataDir (_files : List String) : List String := []

/-- The intake copy step (`main`, lines 224-233): clear the scratch
directory, then copy, in listing order, every submission file whose
name passes the intake filter. -/
def intakeDataDir (prior submission : List String) : List String :=
  submission.foldl (fun acc f => if isIntakeEligible f then acc ++ [f] else acc)
    (clearDataDir prior)

def hexDigit (n : Nat) : Char :=
  if n < 10 then Char.ofNat (48 + n) else Char.ofNat (87 + n)

def hex4 (n : Nat) : List Char :=
  [hexDigit (n / 4096 % 16), hexDigit (n / 256 % 16), hexDigit (n / 16 % 16), hexDigit (n % 16)]

def jsonEscapeChar (c : Char) : List Char :=
  if c = '"' then ['\\', '"']
  else if c = '\\' then ['\\', '\\']
  else if c = '\n' then ['\\', 'n']
  else if c = '\r' then ['\\', 'r']
  else if c = '\t' then ['\\', 't']
  else if c.toNat = 8 then ['\\', 'b']
  else if c.toNat = 12 then ['\\', 'f']
  else if c.toNat < 32 then '\\' :: 'u' :: hex4 c.toNat
  else if c.toNat < 127 then [c]
  else if c.toNat < 65536 then '\\' :: 'u' :: hex4 c.toNat
  else ('\\' :: 'u' :: hex4 (55296 + (c.toNat - 65536) / 1024)) ++
    ('\\' :: 'u' :: hex4 (56320 + (c.toNat - 65536) % 1024))

/-- `json.dumps` applied to a string value. -/
def json_dumps (s : String) : String :=
  ⟨'"' :: (s.data.flatMap jsonEscapeChar ++ ['"'])⟩

/-! ## The two extraction stages and the per-submission driver body

The remote assistant is abstracted as an oracle carrying the three
response texts read back by the program (`data['data'][0]['content'][0]
['text']['value']` of the respective message list): the document-set
extraction response, the property-row response, and the aggregate
response. -/

structure AssistantOracle where
  pdfResp : String
  rowResp : String
  aggResp : String

/-- Result of `process_submission_pdf` (lines 65-123): the files it
uploads into the vector store and the buffer content it writes. -/
structure PdfStageResult where
  uploadedFiles : List String
  buffer : String
deriving DecidableEq

/-- `process_submission_pdf` (lines 65-123), local effects: globs the
scratch directory for `*.pdf` then `*.docx` (line 70), uploads those
files, and OVERWRITES `data/submission.txt` (mode `"w"`, line 117) with
the JSON-encoded response text (line 118). -/
def process_submission_pdf (dataDir : List String) (o : AssistantOracle) :
    PdfStageResult :=
  { uploadedFiles := glob_data ".pdf" dataDir ++ glob_data ".docx" dataDir
    buffer := json_dumps o.pdfResp }

/-- Result of `process_submission_xlsx` (lines 126-212): the single
file it uploads (if any), the buffer content after its appends, and the
log line of the no-tabular-file early return. -/
structure XlsxStageResult where
  uploadedFiles : List String
  buffer : String
  logs : List String
deriving DecidableEq

/-- The candidate tabular files of `process_submission_xlsx`, line 129:
`glob("*.xlsx") + glob("*.xls") + glob("*.csv")`, in that order. -/
def xlsx_candidates (dataDir : List String) : List String :=
  glob_data ".xlsx" dataDir ++ glob_data ".xls" dataDir ++ glob_data ".csv" dataDir

/-- The first delimiter text of the row-extraction append (line 178). -/
def DELIM_OPEN : String := "\n\n------------------------\n\n"

/-- The closing delimiter text of the row-extraction append (line 178). -/
def DELIM_CLOSE : String := "\n\n---------------------------------"

/-- `process_submission_xlsx` (lines 126-212), local effects: if the
scratch directory holds no tabular file, print the log line and return
(lines 131-133); otherwise upload exactly the first candidate
(line 135), append the row-extraction response inside the delimiter
block (line 178), then append the aggregate response (line 210). -/
def process_submission_xlsx (dataDir : List String) (o : AssistantOracle)
    (buffer : String) : XlsxStageResult :=
  match xlsx_candidates dataDir with
  | [] =>
    { uploadedFiles := []
      buffer := buffer
      logs := ["No xlsx, xls, or csv files found in the data directory."] }
  | f :: _ =>
    { uploadedFiles := [f]
      buffer := buffer ++ DELIM_OPEN ++ json_dumps o.rowResp ++ DELIM_CLOSE
        ++ "\n\n" ++ json_dumps o.aggResp ++ "\n\n"
      logs := [] }

/-- Everything the per-submission body of `main` (lines 223-264)
produces locally for one submission folder. -/
structure SubmissionRun where
  dataDirAfterIntake : List String
  pdfStage : PdfStageResult
  xlsxStage : XlsxStageResult
  finalText : String

/-- The per-submission body of `main` (lines 223-264): clear the
scratch directory and copy the eligible files in (lines 224-233), run
`process_submission_pdf` (which also creates `data/submission.txt` in
the scratch directory) then `process_submission_xlsx` (lines 237-238),
apply the cleanup pass to the buffer (lines 240-253), and archive the
result (lines 255-264): `finalText` is the content of the archived
`submission_<timestamp>.txt`. -/
def main_submission_step (prior submission : List String) (o : AssistantOracle) :
    SubmissionRun :=
  let d0 := intakeDataDir prior submission
  let pdf := process_submission_pdf d0 o
  let d1 := d0 ++ ["submission.txt"]
  let xlsx := process_submission_xlsx d1 o pdf.buffer
  { dataDirAfterIntake := d0
    pdfStage := pdf
    xlsxStage := xlsx
    finalText := cleanup_pass xlsx.buffer }

/-- Modelled from the spec data model, which names PDF, DOCX and
XLSX/XLS/CSV as the document types a submission may contain: a file
name carrying one of the five recognized document extensions. -/
def specRecognizedDocExt (name : String) : Bool :=
  endswith name ".pdf" || endswith name ".docx" || endswith name ".xlsx" ||
    endswith name ".xls" || endswith name ".csv"

/-- Modelled from the spec words of the C2 testable property: a buffer
holding only the spreadsheet-path content, that is, exactly the two
appends of `process_submission_xlsx` (the row-extraction response
inside its delimiter block, then the aggregate response). -/
def specSpreadsheetOnlyBuffer (o : AssistantOracle) : String :=
  DELIM_OPEN ++ json_dumps o.rowResp ++ DELIM_CLOSE ++ "\n\n" ++ json_dumps o.aggResp ++ "\n\n"

inductive RemoteCall where
  | createVectorStore
  | uploadFileBatch
  | updateAssistant
  | createThread
  | createMessage
  | createRun
  | retrieveRunPoll
  | listMessages
  | deleteVectorStore
deriving DecidableEq

/-- The remote calls issued by `process_submission_pdf`, in source
order: vector-store create (line 67), file-batch upload-and-poll
(line 76), assistant update (line 85), thread create (line 90), message
create (line 91), run create (line 97), the polling retrievals
(line 103), message list (line 106), vector-store delete (line 123). -/
def pdf_stage_calls : List RemoteCall :=
  [RemoteCall.createVectorStore, RemoteCall.uploadFileBatch, RemoteCall.updateAssistant,
    RemoteCall.createThread, RemoteCall.createMessage, RemoteCall.createRun,
    RemoteCall.retrieveRunPoll, RemoteCall.listMessages, RemoteCall.deleteVectorStore]

/-- Execute a straight-line sequence of remote calls with no handler:
if call number `i` raises, exactly the calls before it completed and
the run fails; otherwise every call completes and the run succeeds. -/
def runRemoteCalls (failAt : Option Nat) (calls : List RemoteCall) :
    List RemoteCall × Bool :=
  match failAt with
  | none => (calls, true)
  | some i => if i < calls.length then (calls.take i, false) else (calls, true)

/-! ## Theorems -/

theorem containsB_cons (pat : List Char) (c : Char) (cs : List Char) :
    containsB pat (c :: cs) = (pat.isPrefixOf (c :: cs) || containsB pat cs) := rfl

theorem isPrefixOf_cons_cons (p : Char) (ps : List Char) (b : Char) (bs : List Char) :
    (p :: ps).isPrefixOf (b :: bs) = ((p == b) && ps.isPrefixOf bs) := rfl

theorem replaceF_nil (pat rep : List Char) (fuel : Nat) :
    replaceF pat rep fuel [] = [] := by
  cases fuel <;> rfl

theorem containsB_nil_eq_false (pat : List Char) (hpat : pat ≠ []) :
    containsB pat [] = false := by
  cases pat with
  | nil => exact absurd rfl hpat
  | cons p ps => rfl

/-- Prepending characters that do not occur in a non-empty pattern
does not create an occurrence of that pattern. -/
theorem containsB_append_left_disjoint {pat : List Char} (hpat : pat ≠ [])
    (r t : List Char) (hr : ∀ c ∈ r, c ∉ pat) :
    containsB pat (r ++ t) = containsB pat t := by
  induction r with
  | nil => rfl
  | cons a r ih =>
    have ha : a ∉ pat := hr a (List.mem_cons_self a r)
    obtain ⟨p, ps, rfl⟩ : ∃ p ps, pat = p :: ps := by
      cases pat with
      | nil => exact absurd rfl hpat
      | cons p ps => exact ⟨p, ps, rfl⟩
    rw [List.cons_append, containsB_cons, isPrefixOf_cons_cons]
    have hpa : (p == a) = false := by
      rw [beq_eq_false_iff_ne]
      intro h
      exact ha (h ▸ List.mem_cons_self p ps)
    rw [hpa, Bool.false_and, Bool.false_or]
    exact ih fun c hc => hr c (List.mem_cons_of_mem a hc)

/-- An occurrence in a suffix (drop) is an occurrence in the whole list. -/
theorem containsB_of_containsB_drop {pat : List Char} :
    ∀ (s : List Char) (n : Nat),
      containsB pat (s.drop n) = true → containsB pat s = true := by
  intro s
  induction s with
  | nil => intro n h; simpa using h
  | cons c cs ih =>
    intro n h
    cases n with
    | zero => simpa using h
    | succ n =>
      rw [List.drop_succ_cons] at h
      rw [containsB_cons]
      rw [ih n h, Bool.or_true]

/-- If a non-empty word `q` over the character set `S` is a prefix of
the output of `replaceF`, and the replacement text contains no
character of `S`, then `q` was already a prefix of the input. -/
theorem isPrefixOf_input_of_isPrefixOf_replaceF {rep' S : List Char}
    (hrep : rep' ≠ []) (hS : ∀ c ∈ rep', c ∉ S) (pat' : List Char) :
    ∀ q : List Char, (∀ c ∈ q, c ∈ S) →
      ∀ (fuel : Nat) (s : List Char), s.length ≤ fuel →
        q.isPrefixOf (replaceF pat' rep' fuel s) = true →
        q.isPrefixOf s = true := by
  intro q
  induction q with
  | nil => intro _ fuel s _ _; cases s <;> rfl
  | cons a q ih =>
    intro hq fuel s hlen hpre
    cases s with
    | nil =>
      rw [replaceF_nil] at hpre
      exact absurd hpre (by simp [List.isPrefixOf])
    | cons c cs =>
      cases fuel with
      | zero => simp at hlen
      | succ fuel =>
        rw [replaceF] at hpre
        by_cases hm : pat'.isPrefixOf (c :: cs) = true
        · rw [if_pos hm] at hpre
          cases hre : rep' with
          | nil => exact absurd hre hrep
          | cons r rr =>
            subst hre
            rw [List.cons_append, isPrefixOf_cons_cons] at hpre
            have har : a = r := by
              have := ((Bool.and_eq_true _ _).mp hpre).1
              exact eq_of_beq this
            have : r ∉ S := hS r (List.mem_cons_self r rr)
            exact absurd (har ▸ hq a (List.mem_cons_self a q)) this
        · rw [if_neg hm] at hpre
          rw [isPrefixOf_cons_cons] at hpre
          obtain ⟨hac, hq'⟩ := (Bool.and_eq_true _ _).mp hpre
          have hcs : cs.length ≤ fuel := by
            simp at hlen; omega
          have := ih (fun c hc => hq c (List.mem_cons_of_mem a hc)) fuel cs hcs hq'
          rw [isPrefixOf_cons_cons, hac, Bool.true_and]
          exact this

/-- After replacing every occurrence of a non-empty pattern by a
non-empty replacement sharing no character with the pattern, the result
contains no occurrence of the pattern. -/
theorem containsB_replaceF_self {pat rep : List Char} (hpat : pat ≠ [])
    (hrep : rep ≠ []) (hd : ∀ c ∈ rep, c ∉ pat) :
    ∀ (fuel : Nat) (s : List Char), s.length ≤ fuel →
      containsB pat (replaceF pat rep fuel s) = false := by
  intro fuel
  induction fuel with
  | zero =>
    intro s hlen
    have hs : s = [] := List.eq_nil_of_length_eq_zero (Nat.le_zero.mp hlen)
    subst hs
    rw [replaceF_nil]
    exact containsB_nil_eq_false pat hpat
  | succ fuel ih =>
    intro s hlen
    cases s with
    | nil =>
      rw [replaceF_nil]
      exact containsB_nil_eq_false pat hpat
    | cons c cs =>
      have hcs : cs.length ≤ fuel := by simp at hlen; omega
      by_cases hm : pat.isPrefixOf (c :: cs) = true
      · rw [replaceF, if_pos hm, containsB_append_left_disjoint hpat rep _ hd]
        apply ih
        have := List.length_drop (pat.length - 1) cs
        omega
      · rw [replaceF, if_neg hm, containsB_cons]
        have ht : containsB pat (replaceF pat rep fuel cs) = false := ih cs hcs
        rw [ht, Bool.or_false]
        obtain ⟨p, ps, rfl⟩ : ∃ p ps, pat = p :: ps := by
          cases pat with
          | nil => exact absurd rfl hpat
          | cons p ps => exact ⟨p, ps, rfl⟩
        rw [isPrefixOf_cons_cons]
        by_cases hpc : (p == c) = true
        · rw [hpc, Bool.true_and]
          by_cases hps : ps.isPrefixOf (replaceF (p :: ps) rep fuel cs) = true
          · exfalso
            have hqs : ∀ x ∈ ps, x ∈ p :: ps := fun x hx => List.mem_cons_of_mem p hx
            have := isPrefixOf_input_of_isPrefixOf_replaceF hrep hd (p :: ps) ps hqs
              fuel cs hcs hps
            apply hm
            rw [isPrefixOf_cons_cons, hpc, Bool.true_and]
            exact this
          · exact Bool.not_eq_true _ ▸ Bool.of_not_eq_true hps
        · rw [Bool.not_eq_true] at hpc
          rw [hpc, Bool.false_and]

/-- Replacing a pattern whose replacement text shares no character with
`pat` cannot create a new occurrence of `pat`. -/
theorem containsB_replaceF_other {pat pat' rep' : List Char} (hpat : pat ≠ [])
    (hrep' : rep' ≠ []) (hd : ∀ c ∈ rep', c ∉ pat) :
    ∀ (fuel : Nat) (s : List Char), s.length ≤ fuel →
      containsB pat s = false →
      containsB pat (replaceF pat' rep' fuel s) = false := by
  intro fuel
  induction fuel with
  | zero =>
    intro s hlen _
    have hs : s = [] := List.eq_nil_of_length_eq_zero (Nat.le_zero.mp hlen)
    subst hs
    rw [replaceF_nil]
    exact containsB_nil_eq_false pat hpat
  | succ fuel ih =>
    intro s hlen hs
    cases s with
    | nil =>
      rw [replaceF_nil]
      exact containsB_nil_eq_false pat hpat
    | cons c cs =>
      have hcs : cs.length ≤ fuel := by simp at hlen; omega
      rw [containsB_cons] at hs
      obtain ⟨hs1, hs2⟩ : pat.isPrefixOf (c :: cs) = false ∧ containsB pat cs = false := by
        cases h1 : pat.isPrefixOf (c :: cs) <;> cases h2 : containsB pat cs <;>
          rw [h1, h2] at hs <;> simp_all
      by_cases hm : pat'.isPrefixOf (c :: cs) = true
      · rw [replaceF, if_pos hm, containsB_append_left_disjoint hpat rep' _ hd]
        apply ih _ (by have := List.length_drop (pat'.length - 1) cs; omega)
        cases hdrop : containsB pat (cs.drop (pat'.length - 1)) with
        | false => rfl
        | true => rw [containsB_of_containsB_drop cs _ hdrop] at hs2; exact hs2
      · rw [replaceF, if_neg hm, containsB_cons]
        have ht : containsB pat (replaceF pat' rep' fuel cs) = false := ih cs hcs hs2
        rw [ht, Bool.or_false]
        obtain ⟨p, ps, rfl⟩ : ∃ p ps, pat = p :: ps := by
          cases pat with
          | nil => exact absurd rfl hpat
          | cons p ps => exact ⟨p, ps, rfl⟩
        rw [isPrefixOf_cons_cons]
        by_cases hpc : (p == c) = true
        · rw [hpc, Bool.true_and]
          by_cases hps : ps.isPrefixOf (replaceF pat' rep' fuel cs) = true
          · exfalso
            have hqs : ∀ x ∈ ps, x ∈ p :: ps := fun x hx => List.mem_cons_of_mem p hx
            have := isPrefixOf_input_of_isPrefixOf_replaceF hrep' hd pat' ps hqs
              fuel cs hcs hps
            rw [isPrefixOf_cons_cons, hpc, Bool.true_and, this] at hs1
            exact Bool.true_eq_false.mp hs1
          · exact Bool.not_eq_true _ ▸ Bool.of_not_eq_true hps
        · rw [Bool.not_eq_true] at hpc
          rw [hpc, Bool.false_and]

/-- On an input with no occurrence of the pattern, `replaceF` is the
identity (for any amount of fuel). -/
theorem replaceF_eq_of_not_containsB {pat rep : List Char} :
    ∀ (fuel : Nat) (s : List Char), containsB pat s = false →
      replaceF pat rep fuel s = s := by
  intro fuel
  induction fuel with
  | zero => intro s _; cases s <;> rfl
  | succ fuel ih =>
    intro s hs
    cases s with
    | nil => rfl
    | cons c cs =>
      rw [containsB_cons] at hs
      obtain ⟨hs1, hs2⟩ : pat.isPrefixOf (c :: cs) = false ∧ containsB pat cs = false := by
        cases h1 : pat.isPrefixOf (c :: cs) <;> cases h2 : containsB pat cs <;>
          rw [h1, h2] at hs <;> simp_all
      rw [replaceF, if_neg (by rw [hs1]; exact Bool.false_ne_true), ih cs hs2]

/-- The output of `pyReplace pat rep` never contains `pat`, when the
replacement is non-empty and shares no character with the non-empty
pattern. -/
theorem pyReplace_not_contains_self {pat rep : List Char} (hpat : pat ≠ [])
    (hrep : rep ≠ []) (hd : ∀ c ∈ rep, c ∉ pat) (s : List Char) :
    containsB pat (pyReplace pat rep s) = false :=
  containsB_replaceF_self hpat hrep hd s.length s (Nat.le_refl _)

/-- `pyReplace pat' rep'` preserves the absence of a pattern `pat` that
shares no character with the replacement `rep'`. -/
theorem pyReplace_preserves_not_contains {pat pat' rep' : List Char} (hpat : pat ≠ [])
    (hrep' : rep' ≠ []) (hd : ∀ c ∈ rep', c ∉ pat) (s : List Char)
    (hs : containsB pat s = false) :
    containsB pat (pyReplace pat' rep' s) = false :=
  containsB_replaceF_other hpat hrep' hd s.length s (Nat.le_refl _) hs

/-- On an input with no occurrence of the pattern, `pyReplace` is the
identity. -/
theorem pyReplace_eq_of_not_contains {pat rep : List Char} (s : List Char)
    (hs : containsB pat s = false) : pyReplace pat rep s = s :=
  replaceF_eq_of_not_containsB s.length s hs

/-- A single Python `str.replace` with a non-empty pattern and a
non-empty replacement sharing no character with the pattern is
idempotent. -/
theorem pyReplace_idem {pat rep : List Char} (hpat : pat ≠ []) (hrep : rep ≠ [])
    (hd : ∀ c ∈ rep, c ∉ pat) (s : List Char) :
    pyReplace pat rep (pyReplace pat rep s) = pyReplace pat rep s :=
  pyReplace_eq_of_not_contains _ (pyReplace_not_contains_self hpat hrep hd s)

/-! ## The cleanup pass (`main`, lines 246-249)

The accumulated buffer text is post-processed by four Python
`str.replace` calls, in source order:

* `text.replace('\\u3010', '[')`   — the six characters backslash,
  `u`, `3`, `0`, `1`, `0` become `[`;
* `text.replace('\\u3011', ']')`;
* `text.replace('\\u2020', 'â€ ')` — the replacement is the three
  characters U+00E2, U+20AC, U+00A0 as they appear in the source file;
* `text.replace('\\n', '\n')`      — backslash `n` becomes a newline.
-/

theorem cleanupSubstL_no_escU3010 (s : List Char) :
    containsB escU3010 (cleanupSubstL s) = false := by
  apply pyReplace_preserves_not_contains (by decide) (by decide) (by decide)
  apply pyReplace_preserves_not_contains (by decide) (by decide) (by decide)
  exact pyReplace_not_contains_self (by decide) (by decide) (by decide) s

theorem cleanupSubstL_no_escU3011 (s : List Char) :
    containsB escU3011 (cleanupSubstL s) = false := by
  apply pyReplace_preserves_not_contains (by decide) (by decide) (by decide)
  exact pyReplace_not_contains_self (by decide) (by decide) (by decide) _

theorem cleanupSubstL_no_escU2020 (s : List Char) :
    containsB escU2020 (cleanupSubstL s) = false :=
  pyReplace_not_contains_self (by decide) (by decide) (by decide) _

theorem cleanupL_no_escU3010 (s : List Char) :
    containsB escU3010 (cleanupL s) = false :=
  pyReplace_preserves_not_contains (by decide) (by decide) (by decide) _
    (cleanupSubstL_no_escU3010 s)

theorem cleanupL_no_escU3011 (s : List Char) :
    containsB escU3011 (cleanupL s) = false :=
  pyReplace_preserves_not_contains (by decide) (by decide) (by decide) _
    (cleanupSubstL_no_escU3011 s)

theorem cleanupL_no_escU2020 (s : List Char) :
    containsB escU2020 (cleanupL s) = false :=
  pyReplace_preserves_not_contains (by decide) (by decide) (by decide) _
    (cleanupSubstL_no_escU2020 s)

/-- C9: the bracket/character substitutions of the cleanup pass
(`main`, lines 246-248) are idempotent: applying the three
substitutions twice yields the same result as applying them once, for
every input text. -/
theorem cleanup_subst_idempotent (s : List Char) :
    cleanupSubstL (cleanupSubstL s) = cleanupSubstL s := by
  show pyReplace escU2020 repDagger
      (pyReplace escU3011 [']'] (pyReplace escU3010 ['['] (cleanupSubstL s))) =
    cleanupSubstL s
  rw [pyReplace_eq_of_not_contains _ (cleanupSubstL_no_escU3010 s),
    pyReplace_eq_of_not_contains _ (cleanupSubstL_no_escU3011 s),
    pyReplace_eq_of_not_contains _ (cleanupSubstL_no_escU2020 s)]

/-- C4 (amended): the newline-unescaping step of the cleanup pass
(`main`, line 249) IS idempotent: applying it twice yields the same
result as applying it once, for every input text.  The replacement
character (a literal newline) can never recombine with its neighbours
into the two-character pattern backslash-`n`. -/
theorem unescape_newlines_idempotent (s : List Char) :
    unescapeNewlinesL (unescapeNewlinesL s) = unescapeNewlinesL s :=
  pyReplace_idem (by decide) (by decide) (by decide) s

/-- C4 (counterexample to the claim as stated): there is NO input
text — in particular none that mixes literal newlines with escaped
newline sequences — on which applying the newline-unescaping step
twice differs from applying it once. -/
theorem unescape_newlines_no_noninvariant_input :
    ¬ ∃ s : List Char, ('\n' ∈ s ∧ containsB escNL s = true) ∧
      unescapeNewlinesL (unescapeNewlinesL s) ≠ unescapeNewlinesL s := by
  rintro ⟨s, -, hne⟩
  exact hne (pyReplace_idem (by decide) (by decide) (by decide) s)

/-! ## Run polling (`monitor_thread_run`, lines 52-62)

The loop starts from `status = "in_progress"`, and on every iteration
sleeps 5 time units, retrieves the run, records its status, and exits
only when the recorded status lies in the terminal set.  We model the
remote run statuses as an abstract stream `statuses : Nat → String`
(the status retrieved by the k-th poll), and the loop as a fuel-indexed
recursion returning the index of the poll whose status is terminal —
`none` meaning that the loop is still running after `fuel` polls. -/

/-- C1: the polling function returns only when the most recently
retrieved run status is terminal (completed, cancelled, expired or
failed); consecutive retrievals are a fixed 5 time units apart; and if
no retrieved status is ever terminal the loop never returns, whatever
the amount of fuel — the source loop has no maximum wait. -/
theorem monitor_thread_run_spec (statuses : Nat → String) :
    (∀ fuel k j, monitor_thread_run statuses fuel k = some j →
      is_terminal_status (statuses j) = true) ∧
    (poll_elapsed_time 0 = 5 ∧
      ∀ k, poll_elapsed_time (k + 1) = poll_elapsed_time k + 5) ∧
    ((∀ k, is_terminal_status (statuses k) = false) →
      ∀ fuel k, monitor_thread_run statuses fuel k = none) := by
  refine ⟨?_, ⟨rfl, fun k => by simp [poll_elapsed_time]; ring⟩, ?_⟩
  · intro fuel
    induction fuel with
    | zero => intro k j h; exact absurd h (by simp [monitor_thread_run])
    | succ fuel ih =>
      intro k j h
      rw [monitor_thread_run] at h
      by_cases ht : is_terminal_status (statuses k) = true
      · rw [if_pos ht] at h
        obtain rfl : k = j := Option.some.inj h
        exact ht
      · rw [if_neg ht] at h
        exact ih (k+1) j h
  · intro hnever fuel
    induction fuel with
    | zero => intro k; rfl
    | succ fuel ih =>
      intro k
      rw [monitor_thread_run, if_neg (by rw [hnever k]; exact Bool.false_ne_true)]
      exact ih (k+1)

/-- Witness for C1 at concrete inputs: a stream that is never terminal
keeps the loop running past three polls, and the loop applied to a
stream that becomes terminal at poll 2 returns exactly that poll, whose
status is terminal. -/
theorem monitor_thread_run_spec_witness :
    monitor_thread_run (fun _ => "in_progress") 3 0 = none ∧
    is_terminal_status ((fun k => if k == 2 then "completed" else "queued") 2) = true := by
  constructor
  · exact (monitor_thread_run_spec (fun _ => "in_progress")).2.2
      (fun k => by decide) 3 0
  · exact (monitor_thread_run_spec (fun k => if k == 2 then "completed" else "queued")).1
      5 0 2 (by decide)

/-! ## Files, extensions, intake copy (`main`, lines 224-233)

A directory is modelled as the list of its file names, in enumeration
order.  `endswith` is Python `str.endswith`; `glob_data` models
`glob.glob(os.path.join(DATA_DIR, "*.ext"))` over the scratch
directory listing: a `*`-pattern matches a name that carries the
extension and, as in Python glob, does not start with a dot. -/

theorem intake_foldl_eq_filter (submission acc : List String) :
    submission.foldl (fun acc f => if isIntakeEligible f then acc ++ [f] else acc) acc
      = acc ++ submission.filter isIntakeEligible := by
  induction submission generalizing acc with
  | nil => simp
  | cons f fs ih =>
    rw [List.foldl_cons, List.filter_cons]
    by_cases h : isIntakeEligible f = true
    · rw [if_pos h, if_pos h, ih]
      simp
    · rw [if_neg h, ih, if_neg h]

theorem intakeDataDir_eq_filter (prior submission : List String) :
    intakeDataDir prior submission = submission.filter isIntakeEligible := by
  rw [intakeDataDir, intake_foldl_eq_filter]
  rfl

/-- Two suffixes of the same string are comparable; so a name cannot
end in two incompatible suffixes. -/
theorem endswith_excl {f : String} (a b : String)
    (ha : endswith f a = true)
    (hab : a.data.isSuffixOf b.data = false ∧ b.data.isSuffixOf a.data = false) :
    endswith f b = false := by
  cases hb : endswith f b with
  | false => rfl
  | true =>
    exfalso
    rw [endswith, List.isSuffixOf_iff_suffix] at ha hb
    rcases List.suffix_or_suffix_of_suffix ha hb with h | h
    · rw [← List.isSuffixOf_iff_suffix] at h
      rw [h] at hab
      exact Bool.true_eq_false.mp hab.1
    · rw [← List.isSuffixOf_iff_suffix] at h
      rw [h] at hab
      exact Bool.true_eq_false.mp hab.2

/-- An intake-eligible file name (ending in `.pdf`, `.docx` or `.xlsx`)
does not end in `.xls` and does not end in `.csv`. -/
theorem isIntakeEligible_not_tabular_other {f : String}
    (h : isIntakeEligible f = true) :
    endswith f ".xls" = false ∧ endswith f ".csv" = false := by
  rw [isIntakeEligible] at h
  rcases Bool.or_eq_true_iff.mp h with h | h
  rcases Bool.or_eq_true_iff.mp h with h | h
  · exact ⟨endswith_excl ".pdf" ".xls" h (by decide),
      endswith_excl ".pdf" ".csv" h (by decide)⟩
  · exact ⟨endswith_excl ".docx" ".xls" h (by decide),
      endswith_excl ".docx" ".csv" h (by decide)⟩
  · exact ⟨endswith_excl ".xlsx" ".xls" h (by decide),
      endswith_excl ".xlsx" ".csv" h (by decide)⟩

/-! ## `json.dumps` of a string value (lines 118, 178, 210)

The extraction result is a Python string; `json.dumps(output_data,
indent=2)` on a string scalar ignores the indent and produces the
double-quoted, ASCII-escaped JSON encoding (`ensure_ascii` defaults to
true, so characters outside printable ASCII become lowercase `\uXXXX`
escapes, with surrogate pairs beyond the basic plane). -/

theorem glob_data_eq_nil {ext : String} {dataDir : List String}
    (h : ∀ f ∈ dataDir, endswith f ext = false) : glob_data ext dataDir = [] := by
  rw [glob_data]
  induction dataDir with
  | nil => rfl
  | cons f fs ih =>
    have hf := h f (List.mem_cons_self f fs)
    rw [List.filter_cons, hf]
    simp only [Bool.false_and, if_neg]
    exact ih fun g hg => h g (List.mem_cons_of_mem f hg)

theorem mem_glob_data {ext : String} {dataDir : List String} {f : String}
    (h : f ∈ glob_data ext dataDir) : f ∈ dataDir ∧ endswith f ext = true := by
  rw [glob_data] at h
  obtain ⟨h1, h2⟩ := List.mem_filter.mp h
  exact ⟨h1, ((Bool.and_eq_true _ _).mp h2).1⟩

theorem mem_intakeDataDir_eligible {prior submission : List String} {f : String}
    (h : f ∈ intakeDataDir prior submission) : isIntakeEligible f = true := by
  rw [intakeDataDir_eq_filter] at h
  exact (List.mem_filter.mp h).2

/-- C3 (amended): after the intake copy step, the scratch workspace
contains exactly the files of the submission folder whose name ends in
`.pdf`, `.docx` or `.xlsx` — the filter of `main`, line 232 — no
others, whatever else the folder contains and whatever the scratch
directory held before. -/
theorem intake_copy_exact (prior submission : List String) (f : String) :
    f ∈ intakeDataDir prior submission ↔
      f ∈ submission ∧ isIntakeEligible f = true := by
  rw [intakeDataDir_eq_filter]
  exact List.mem_filter

theorem intake_copy_exact_witness :
    ("a.pdf" ∈ intakeDataDir ["junk.txt"] ["a.pdf", "b.csv"]) ↔
      ("a.pdf" ∈ ["a.pdf", "b.csv"] ∧ isIntakeEligible "a.pdf" = true) :=
  intake_copy_exact ["junk.txt"] ["a.pdf", "b.csv"] "a.pdf"

/-- C3 (counterexample to the claim as stated): `sov.csv` carries a
recognized document extension of the spec data model, yet the intake
copy step leaves the scratch workspace empty, because the source filter
(line 232) accepts only `.pdf`, `.docx` and `.xlsx`. -/
theorem intake_copy_recognized_counterexample :
    specRecognizedDocExt "sov.csv" = true ∧
    intakeDataDir ["stale.bin"] ["sov.csv"] = [] ∧
    "sov.csv" ∉ intakeDataDir ["stale.bin"] ["sov.csv"] ∧
    specRecognizedDocExt "book.xls" = true ∧
    intakeDataDir [] ["book.xls"] = [] := by
  decide

/-- C10: every file the spreadsheet stage uploads, when driven by the
top-level loop, ends in `.xlsx`: the intake filter copies no `.xls` or
`.csv` names into the scratch workspace, so the `.xls` and `.csv` glob
branches of line 129 never match. -/
theorem xlsx_stage_uploads_only_xlsx (prior submission : List String)
    (o : AssistantOracle) :
    ∀ f ∈ (main_submission_step prior submission o).xlsxStage.uploadedFiles,
      endswith f ".xlsx" = true := by
  intro f hf
  have hxls : glob_data ".xls" (intakeDataDir prior submission ++ ["submission.txt"]) = [] := by
    apply glob_data_eq_nil
    intro g hg
    rcases List.mem_append.mp hg with hg | hg
    · exact (isIntakeEligible_not_tabular_other (mem_intakeDataDir_eligible hg)).1
    · rw [List.mem_singleton.mp hg]; decide
  have hcsv : glob_data ".csv" (intakeDataDir prior submission ++ ["submission.txt"]) = [] := by
    apply glob_data_eq_nil
    intro g hg
    rcases List.mem_append.mp hg with hg | hg
    · exact (isIntakeEligible_not_tabular_other (mem_intakeDataDir_eligible hg)).2
    · rw [List.mem_singleton.mp hg]; decide
  have hcand : xlsx_candidates (intakeDataDir prior submission ++ ["submission.txt"]) =
      glob_data ".xlsx" (intakeDataDir prior submission ++ ["submission.txt"]) := by
    rw [xlsx_candidates, hxls, hcsv, List.append_nil, List.append_nil]
  have hup : (main_submission_step prior submission o).xlsxStage.uploadedFiles =
      (process_submission_xlsx (intakeDataDir prior submission ++ ["submission.txt"]) o
        (process_submission_pdf (intakeDataDir prior submission) o).buffer).uploadedFiles := rfl
  rw [hup, process_submission_xlsx] at hf
  revert hf
  cases hc : xlsx_candidates (intakeDataDir prior submission ++ ["submission.txt"]) with
  | nil => intro hf; simp at hf
  | cons g gs =>
    intro hf
    have hfg : f = g := List.mem_singleton.mp hf
    have hgmem : g ∈ glob_data ".xlsx" (intakeDataDir prior submission ++ ["submission.txt"]) := by
      rw [← hcand, hc]; exact List.mem_cons_self g gs
    rw [hfg]
    exact (mem_glob_data hgmem).2

theorem xlsx_stage_uploads_only_xlsx_witness :
    endswith "sov.xlsx" ".xlsx" = true :=
  xlsx_stage_uploads_only_xlsx [] ["sov.xlsx"] ⟨"P", "R", "A"⟩ "sov.xlsx" (by decide)

/-- C7: when the scratch workspace holds no file ending in `.xlsx`,
`.xls` or `.csv`, the spreadsheet-extraction stage prints its log line
and returns unchanged: it uploads nothing and appends nothing to the
output buffer (and, being a total function of the listing, raises
nothing). -/
theorem xlsx_stage_no_tabular (dataDir : List String) (o : AssistantOracle)
    (buffer : String)
    (h : ∀ f ∈ dataDir, endswith f ".xlsx" = false ∧ endswith f ".xls" = false ∧
      endswith f ".csv" = false) :
    process_submission_xlsx dataDir o buffer =
      { uploadedFiles := []
        buffer := buffer
        logs := ["No xlsx, xls, or csv files found in the data directory."] } := by
  have hcand : xlsx_candidates dataDir = [] := by
    rw [xlsx_candidates,
      glob_data_eq_nil fun f hf => (h f hf).1,
      glob_data_eq_nil fun f hf => (h f hf).2.1,
      glob_data_eq_nil fun f hf => (h f hf).2.2]
    rfl
  rw [process_submission_xlsx, hcand]

theorem xlsx_stage_no_tabular_witness :
    process_submission_xlsx ["report.pdf", "submission.txt"] ⟨"P", "R", "A"⟩ "B" =
      { uploadedFiles := []
        buffer := "B"
        logs := ["No xlsx, xls, or csv files found in the data directory."] } :=
  xlsx_stage_no_tabular ["report.pdf", "submission.txt"] ⟨"P", "R", "A"⟩ "B" (by decide)

/-- C8: the spreadsheet-extraction stage uploads exactly the first
candidate in the order `*.xlsx` glob, then `*.xls`, then `*.csv`
(line 129, line 135): its uploads are the one-element list holding the
head of that concatenation — exactly one file whenever any tabular
candidate exists, and no other tabular file is uploaded. -/
theorem xlsx_stage_first_match (dataDir : List String) (o : AssistantOracle)
    (buffer : String) :
    (process_submission_xlsx dataDir o buffer).uploadedFiles =
      (xlsx_candidates dataDir).head?.toList ∧
    (xlsx_candidates dataDir).head? =
      ((glob_data ".xlsx" dataDir).head?.or
        (((glob_data ".xls" dataDir).head?).or ((glob_data ".csv" dataDir).head?))) ∧
    (xlsx_candidates dataDir ≠ [] →
      (process_submission_xlsx dataDir o buffer).uploadedFiles.length = 1) := by
  refine ⟨?_, ?_, ?_⟩
  · rw [process_submission_xlsx]
    cases hc : xlsx_candidates dataDir with
    | nil => rfl
    | cons g gs => rfl
  · rw [xlsx_candidates]
    cases glob_data ".xlsx" dataDir with
    | cons g gs => rfl
    | nil =>
      cases glob_data ".xls" dataDir with
      | cons g gs => rfl
      | nil =>
        cases glob_data ".csv" dataDir with
        | cons g gs => rfl
        | nil => rfl
  · intro hne
    rw [process_submission_xlsx]
    cases hc : xlsx_candidates dataDir with
    | nil => exact absurd hc hne
    | cons g gs => rfl

theorem xlsx_stage_first_match_witness :
    (process_submission_xlsx ["b.csv", "a.xls"] ⟨"P", "R", "A"⟩ "B").uploadedFiles.length = 1 :=
  (xlsx_stage_first_match ["b.csv", "a.xls"] ⟨"P", "R", "A"⟩ "B").2.2 (by decide)

/-- C2 (counterexample to the claim as stated): for the submission
folder holding only `sov.xlsx`, the PDF-path stage uploads no file and
does not crash, but it still overwrites the buffer with its own
JSON-encoded response (line 117 opens the buffer in mode `"w"`
unconditionally), so the resulting buffer is NOT only the
spreadsheet-path content. -/
theorem pdf_stage_always_writes_counterexample :
    (main_submission_step [] ["sov.xlsx"] ⟨"P", "R", "A"⟩).pdfStage.uploadedFiles = [] ∧
    (main_submission_step [] ["sov.xlsx"] ⟨"P", "R", "A"⟩).xlsxStage.buffer ≠
      specSpreadsheetOnlyBuffer ⟨"P", "R", "A"⟩ ∧
    (main_submission_step [] ["sov.xlsx"] ⟨"P", "R", "A"⟩).xlsxStage.buffer =
      json_dumps "P" ++ specSpreadsheetOnlyBuffer ⟨"P", "R", "A"⟩ := by
  refine ⟨by decide, by decide, by decide⟩

/-- C2 (amended): for a submission folder containing only `.xlsx`
and/or `.csv` files, the PDF-path stage uploads no file and completes
(in this embedding it is a total function), but it overwrites the
output buffer with its own JSON-encoded response; the final buffer is
that PDF-stage content followed by the spreadsheet-path content when a
tabular file was copied, or the PDF-stage content alone otherwise. -/
theorem pdf_stage_on_spreadsheet_only_folder (prior submission : List String)
    (o : AssistantOracle)
    (h : ∀ f ∈ submission, endswith f ".xlsx" = true ∨ endswith f ".csv" = true) :
    (main_submission_step prior submission o).pdfStage.uploadedFiles = [] ∧
    (main_submission_step prior submission o).pdfStage.buffer = json_dumps o.pdfResp ∧
    ((main_submission_step prior submission o).xlsxStage.buffer =
        json_dumps o.pdfResp ++ specSpreadsheetOnlyBuffer o ∨
      (main_submission_step prior submission o).xlsxStage.buffer = json_dumps o.pdfResp) := by
  have hnopdf : ∀ f ∈ intakeDataDir prior submission, endswith f ".pdf" = false := by
    intro f hf
    rw [intakeDataDir_eq_filter] at hf
    rcases h f (List.mem_filter.mp hf).1 with hx | hx
    · exact endswith_excl ".xlsx" ".pdf" hx (by decide)
    · exact endswith_excl ".csv" ".pdf" hx (by decide)
  have hnodocx : ∀ f ∈ intakeDataDir prior submission, endswith f ".docx" = false := by
    intro f hf
    rw [intakeDataDir_eq_filter] at hf
    rcases h f (List.mem_filter.mp hf).1 with hx | hx
    · exact endswith_excl ".xlsx" ".docx" hx (by decide)
    · exact endswith_excl ".csv" ".docx" hx (by decide)
  have hpdf : (main_submission_step prior submission o).pdfStage.uploadedFiles = [] := by
    have : (main_submission_step prior submission o).pdfStage =
        process_submission_pdf (intakeDataDir prior submission) o := rfl
    rw [this, process_submission_pdf, glob_data_eq_nil hnopdf, glob_data_eq_nil hnodocx]
    rfl
  refine ⟨hpdf, rfl, ?_⟩
  have hx : (main_submission_step prior submission o).xlsxStage =
      process_submission_xlsx (intakeDataDir prior submission ++ ["submission.txt"]) o
        (json_dumps o.pdfResp) := rfl
  rw [hx, process_submission_xlsx]
  cases xlsx_candidates (intakeDataDir prior submission ++ ["submission.txt"]) with
  | nil => exact Or.inr rfl
  | cons g gs =>
    left
    show json_dumps o.pdfResp ++ DELIM_OPEN ++ json_dumps o.rowResp ++ DELIM_CLOSE
        ++ "\n\n" ++ json_dumps o.aggResp ++ "\n\n" =
      json_dumps o.pdfResp ++ specSpreadsheetOnlyBuffer o
    rw [specSpreadsheetOnlyBuffer]
    simp [String.append_assoc]

theorem pdf_stage_on_spreadsheet_only_folder_witness :
    (main_submission_step [] ["sov.xlsx"] ⟨"P", "R", "A"⟩).pdfStage.uploadedFiles = [] :=
  (pdf_stage_on_spreadsheet_only_folder [] ["sov.xlsx"] ⟨"P", "R", "A"⟩ (by decide)).1

/-- C5: for a submission with one PDF and one spreadsheet file, the
buffer is assembled in a fixed order — the PDF stage overwrites it
with its JSON-encoded response text, the spreadsheet stage appends the
row-extraction response inside the delimiter block and then the
aggregate response — and the archived file is the cleanup pass of that
concatenation, with no raw `【`, `】` or `†` escape
sequence remaining. -/
theorem end_to_end_pdf_xlsx_order (prior : List String) (o : AssistantOracle)
    (p x : String)
    (hp : endswith p ".pdf" = true) (hpd : startsWithDot p = false)
    (hx : endswith x ".xlsx" = true) (hxd : startsWithDot x = false) :
    (main_submission_step prior [p, x] o).pdfStage.uploadedFiles = [p] ∧
    (main_submission_step prior [p, x] o).pdfStage.buffer = json_dumps o.pdfResp ∧
    (main_submission_step prior [p, x] o).xlsxStage.uploadedFiles = [x] ∧
    (main_submission_step prior [p, x] o).xlsxStage.buffer =
      json_dumps o.pdfResp ++ DELIM_OPEN ++ json_dumps o.rowResp ++ DELIM_CLOSE
        ++ "\n\n" ++ json_dumps o.aggResp ++ "\n\n" ∧
    (main_submission_step prior [p, x] o).finalText =
      cleanup_pass (json_dumps o.pdfResp ++ DELIM_OPEN ++ json_dumps o.rowResp
        ++ DELIM_CLOSE ++ "\n\n" ++ json_dumps o.aggResp ++ "\n\n") ∧
    containsB escU3010 (main_submission_step prior [p, x] o).finalText.data = false ∧
    containsB escU3011 (main_submission_step prior [p, x] o).finalText.data = false ∧
    containsB escU2020 (main_submission_step prior [p, x] o).finalText.data = false := by
  have exp : isIntakeEligible p = true := by rw [isIntakeEligible, hp]; rfl
  have exx : isIntakeEligible x = true := by rw [isIntakeEligible, hx, Bool.or_true]
  have hd0 : intakeDataDir prior [p, x] = [p, x] := by
    rw [intakeDataDir_eq_filter]
    simp [List.filter_cons, exp, exx]
  have np1 : endswith x ".pdf" = false := endswith_excl ".xlsx" ".pdf" hx (by decide)
  have nd1 : endswith p ".docx" = false := endswith_excl ".pdf" ".docx" hp (by decide)
  have nd2 : endswith x ".docx" = false := endswith_excl ".xlsx" ".docx" hx (by decide)
  have nx1 : endswith p ".xlsx" = false := endswith_excl ".pdf" ".xlsx" hp (by decide)
  have nxls1 : endswith p ".xls" = false := endswith_excl ".pdf" ".xls" hp (by decide)
  have nxls2 : endswith x ".xls" = false := endswith_excl ".xlsx" ".xls" hx (by decide)
  have ncsv1 : endswith p ".csv" = false := endswith_excl ".pdf" ".csv" hp (by decide)
  have ncsv2 : endswith x ".csv" = false := endswith_excl ".xlsx" ".csv" hx (by decide)
  have st1 : endswith "submission.txt" ".xlsx" = false := by decide
  have st2 : endswith "submission.txt" ".xls" = false := by decide
  have st3 : endswith "submission.txt" ".csv" = false := by decide
  have gpdf : glob_data ".pdf" [p, x] = [p] := by
    simp [glob_data, List.filter_cons, hp, hpd, np1]
  have gdocx : glob_data ".docx" [p, x] = [] := by
    simp [glob_data, List.filter_cons, nd1, nd2]
  have gx : glob_data ".xlsx" [p, x, "submission.txt"] = [x] := by
    simp [glob_data, List.filter_cons, nx1, hx, hxd, st1]
  have gxls : glob_data ".xls" [p, x, "submission.txt"] = [] := by
    simp [glob_data, List.filter_cons, nxls1, nxls2, st2]
  have gcsv : glob_data ".csv" [p, x, "submission.txt"] = [] := by
    simp [glob_data, List.filter_cons, ncsv1, ncsv2, st3]
  have hcand : xlsx_candidates [p, x, "submission.txt"] = [x] := by
    rw [xlsx_candidates, gx, gxls, gcsv]
    rfl
  have hpdfStage : (main_submission_step prior [p, x] o).pdfStage =
      { uploadedFiles := [p], buffer := json_dumps o.pdfResp } := by
    show process_submission_pdf (intakeDataDir prior [p, x]) o = _
    rw [hd0, process_submission_pdf, gpdf, gdocx]
    rfl
  have hxlsxStage : (main_submission_step prior [p, x] o).xlsxStage =
      { uploadedFiles := [x]
        buffer := json_dumps o.pdfResp ++ DELIM_OPEN ++ json_dumps o.rowResp
          ++ DELIM_CLOSE ++ "\n\n" ++ json_dumps o.aggResp ++ "\n\n"
        logs := [] } := by
    show process_submission_xlsx (intakeDataDir prior [p, x] ++ ["submission.txt"]) o
        (process_submission_pdf (intakeDataDir prior [p, x]) o).buffer = _
    rw [hd0]
    show process_submission_xlsx [p, x, "submission.txt"] o (json_dumps o.pdfResp) = _
    rw [process_submission_xlsx, hcand]
  refine ⟨?_, rfl, ?_, ?_, ?_,
    cleanupL_no_escU3010 _, cleanupL_no_escU3011 _, cleanupL_no_escU2020 _⟩
  · rw [hpdfStage]
  · rw [hxlsxStage]
  · rw [hxlsxStage]
  · show cleanup_pass (main_submission_step prior [p, x] o).xlsxStage.buffer = _
    rw [hxlsxStage]

theorem end_to_end_pdf_xlsx_order_witness :
    (main_submission_step ["stale.txt"] ["acct.pdf", "sov.xlsx"]
      ⟨"P", "R", "A"⟩).pdfStage.uploadedFiles = ["acct.pdf"] ∧
    (main_submission_step ["stale.txt"] ["acct.pdf", "sov.xlsx"]
      ⟨"P", "R", "A"⟩).xlsxStage.uploadedFiles = ["sov.xlsx"] := by
  have h := end_to_end_pdf_xlsx_order ["stale.txt"] ⟨"P", "R", "A"⟩ "acct.pdf" "sov.xlsx"
    (by decide) (by decide) (by decide) (by decide)
  exact ⟨h.1, h.2.2.1⟩

/-! ## Remote-call order of the document-set stage (C6)

`process_submission_pdf` is straight-line code with no exception
handler (`try`/`finally` is absent): its remote calls happen in a fixed
order, and the vector-store deletion (line 123) is the last of them.
We model an execution in which the i-th remote call may raise: the
calls before it complete, the failing call and everything after it do
not, and the stage reports failure (the exception propagates). -/

/-- C6: when no step of the document-set stage raises, the
vector-store deletion is performed (and is the last remote call); when
any earlier call raises, the deletion is skipped — it appears nowhere
in the completed-call trace — and the failure propagates. -/
theorem pdf_stage_vector_store_cleanup :
    ((runRemoteCalls none pdf_stage_calls).2 = true ∧
      (runRemoteCalls none pdf_stage_calls).1.getLast? =
        some RemoteCall.deleteVectorStore) ∧
    (∀ i, i < 8 →
      RemoteCall.deleteVectorStore ∉ (runRemoteCalls (some i) pdf_stage_calls).1 ∧
      (runRemoteCalls (some i) pdf_stage_calls).2 = false) := by
  decide

theorem pdf_stage_vector_store_cleanup_witness :
    RemoteCall.deleteVectorStore ∉ (runRemoteCalls (some 5) pdf_stage_calls).1 ∧
    (runRemoteCalls (some 5) pdf_stage_calls).2 = false :=
  pdf_stage_vector_store_cleanup.2 5 (by decide)
